import Mathlib

/-!
# Verification of the pr-visual hosted worker core

A shallow embedding of the event-driven pipeline of `src/worker/src`
(`index.ts`, `crypto.ts`, `workflow.ts`): webhook authentication, the
idempotency key, the entitlement gate, diff-context assembly, the comment
history round-trip and the workflow step sequence.  JS strings are modelled
as `List Char`; JS numbers that carry ids/counters as `Nat`, meter balances
as `Int`; fallible collaborator calls as explicit outcome values.
-/

set_option maxRecDepth 4096

namespace PRVisual

/-- JS strings are modelled as lists of characters.  All strings the claims
touch are sequences of basic-plane code points, where JS UTF-16 code units
and code points coincide. -/
abbrev Str : Type := List Char

/-- Conversion of a Lean string literal into the model representation. -/
def str (s : String) : Str := s.toList

/-! ## Data model (`src/worker/src/types.ts`) -/

structure Installation where
  id : Nat
deriving DecidableEq

structure RepoOwner where
  login : Str
deriving DecidableEq

structure Repository where
  id : Nat
  full_name : Str
  owner : RepoOwner
  name : Str
deriving DecidableEq

structure PRHead where
  sha : Str
  ref : Str
deriving DecidableEq

structure PullRequestInfo where
  number : Nat
  title : Str
  body : Option Str
  head : PRHead
deriving DecidableEq

structure PRWebhookPayload where
  action : Str
  number : Nat
  pull_request : PullRequestInfo
  repository : Repository
  installation : Installation
deriving DecidableEq

/-- `src/worker/src/types.ts` `PRFile` (the fields the pipeline reads).
`patch?: string | undefined` becomes `Option Str`. -/
structure PRFile where
  filename : Str
  patch : Option Str
deriving DecidableEq

/-- JS falsiness of a `string | null | undefined` value: `null`/`undefined`
and the empty string are falsy. -/
def jsFalsy : Option Str → Bool
  | none => true
  | some s => s.isEmpty

/-! ## Idempotency key (`src/worker/src/index.ts:105`)

`const workflowId =
  ` followed by the template
`installation.id-repository.id-pull_request.number-pull_request.head.sha`
(fields joined by `-`); numeric fields render in decimal as JS template
interpolation does. -/

def workflowId (payload : PRWebhookPayload) : Str :=
  str (Nat.repr payload.installation.id) ++ str "-" ++
    str (Nat.repr payload.repository.id) ++ str "-" ++
    str (Nat.repr payload.pull_request.number) ++ str "-" ++
    payload.pull_request.head.sha

/-! ## Signature verification (`src/worker/src/crypto.ts`) -/

/-- `timingSafeEqual` (crypto.ts:27-34): equal-length check, then a
branchless XOR-accumulate over the code units (`result |= a.charCodeAt(i) ^
b.charCodeAt(i)`), then `result === 0`. -/
def timingSafeEqual (a b : Str) : Bool :=
  if a.length ≠ b.length then false
  else
    ((List.zipWith (fun x y : Char => x.toNat ^^^ y.toNat) a b).foldl
      (fun r v => r ||| v) 0) == 0

/-- `arrayBufferToHex` (crypto.ts:21-25): each byte rendered as
`b.toString(16).padStart(2, "0")` — two lowercase hex digits for `b < 256`
(HMAC output bytes always are). -/
def arrayBufferToHex (bytes : List Nat) : Str :=
  (bytes.map fun b => [Nat.digitChar (b / 16 % 16), Nat.digitChar (b % 16)]).flatten

/-- `verifyWebhookSignature` (crypto.ts:1-19).  The Web-Crypto HMAC-SHA-256
primitive is an external collaborator; it enters the model as the function
argument `hmacSha256 : secret → payload → digest bytes`. -/
def verifyWebhookSignature (hmacSha256 : Str → Str → List Nat)
    (payload signature secret : Str) : Bool :=
  timingSafeEqual (str "sha256=" ++ arrayBufferToHex (hmacSha256 secret payload)) signature

/-! ## Diff-context assembly (`src/worker/src/workflow.ts:178-205`) -/

def MAX_DIFF_BYTES : Nat := 50000

def SKIP_FILES : List Str :=
  [str "package-lock.json", str "yarn.lock", str "pnpm-lock.yaml", str "bun.lockb"]

/-- The `SKIP_FILES.some((skip) => file.filename.endsWith(skip))` guard
(workflow.ts:191). -/
def skipFile (f : PRFile) : Bool :=
  SKIP_FILES.any fun skip => skip.isSuffixOf f.filename

/-- The per-file block (workflow.ts:194). -/
def fileEntry (f : PRFile) (patch : Str) : Str :=
  str "\n--- " ++ f.filename ++ str " ---\n" ++ patch ++ str "\n"

/-- The line pushed when the cap would be exceeded (workflow.ts:196);
the template interpolates `MAX_DIFF_BYTES`. -/
def truncationMarker : Str :=
  str "\n... (diff truncated at " ++ str (Nat.repr MAX_DIFF_BYTES) ++ str " bytes) ..."

/-- The header (workflow.ts:186): title line, then the description line when
`body` is truthy, then a blank line. -/
def diffHeader (title : Str) (body : Option Str) : Str :=
  str "PR Title: " ++ title ++ str "\n" ++
    (if jsFalsy body then [] else str "Description: " ++ body.getD [] ++ str "\n") ++
    str "\n"

/-- The `for (const file of files)` loop of `buildDiffContext`
(workflow.ts:190-202): skipped files leave the running byte count untouched;
a block that would push it past the cap stops the loop after pushing the
truncation marker. -/
def buildLoop : List PRFile → Nat → List Str
  | [], _ => []
  | f :: rest, totalBytes =>
    if skipFile f then buildLoop rest totalBytes
    else if jsFalsy f.patch then buildLoop rest totalBytes
    else
      let entry := fileEntry f (f.patch.getD [])
      if totalBytes + entry.length > MAX_DIFF_BYTES then [truncationMarker]
      else entry :: buildLoop rest (totalBytes + entry.length)

/-- `buildDiffContext` (workflow.ts:178-205): the header is pushed (and
counted) first, then the loop, then the concatenation `patches.join("")`. -/
def buildDiffContext (files : List PRFile) (title : Str) (body : Option Str) : Str :=
  ((diffHeader title body) :: buildLoop files (diffHeader title body).length).flatten

/-- A file contributes a block exactly when it is not skip-listed and its
patch is truthy — the two `continue` guards of the loop. -/
def eligibleFile (f : PRFile) : Bool :=
  !skipFile f && !jsFalsy f.patch

/-- Whether the loop hits its truncation branch: some eligible block, at the
running byte count the loop reaches it with, would push past the cap. -/
def diffTruncated : List PRFile → Nat → Bool
  | [], _ => false
  | f :: rest, totalBytes =>
    if skipFile f then diffTruncated rest totalBytes
    else if jsFalsy f.patch then diffTruncated rest totalBytes
    else
      let entry := fileEntry f (f.patch.getD [])
      if totalBytes + entry.length > MAX_DIFF_BYTES then true
      else diffTruncated rest (totalBytes + entry.length)

/-! ## Comment history (`src/worker/src/workflow.ts:7-37, 207-237`)

The source parses rendered comments with two JS regexes.  They are embedded
as deterministic matchers; each construct is compiled to the unique behaviour
the backtracking engine can exhibit on it (justified in the doc comments
below). -/

structure HistoryImage where
  sha : Str
  url : Str
deriving DecidableEq

def COMMENT_MARKER : Str := str "<!-- pr-visual -->"

/-- The character class `[a-f0-9]` of both comment regexes. -/
def isHexDigitChar (c : Char) : Bool :=
  ('a' ≤ c && c ≤ 'f') || ('0' ≤ c && c ≤ '9')

/-- JS regex `\s` on the characters this code can meet: ASCII whitespace,
NBSP and the BOM (the remaining Unicode space separators never occur here). -/
def isJsWs (c : Char) : Bool :=
  c = ' ' || c = '\t' || c = '\n' || c = '\x0b' || c = '\x0c' || c = '\r' ||
    c = '\u00A0' || c = '\uFEFF'

/-- The character class `[^\s)]` of the image-URL capture. -/
def isUrlChar (c : Char) : Bool := !isJsWs c && c != ')'

/-- Consume the literal `pat` from the front of `s`. -/
def dropLit : Str → Str → Option Str
  | [], s => some s
  | _ :: _, [] => none
  | p :: ps, c :: cs => if p = c then dropLit ps cs else none

/-- `(https:\/\/[^\s)]+\.png)\)`: the literal `https://`, then the greedy
class run, then `.png`, then `)`.  Because `)` is outside the class and the
four characters of `.png` are inside it, the only split backtracking can
accept takes the whole maximal class run, demands that it end in `.png` with
at least one class character before it (length ≥ 5), and demands `)` right
after the run. -/
def matchUrlAt (s : Str) : Option (Str × Str) :=
  match dropLit (str "https://") s with
  | none => none
  | some s1 =>
    let run := s1.takeWhile isUrlChar
    if 5 ≤ run.length && List.isSuffixOf (str ".png") run then
      match dropLit (str ")") (s1.dropWhile isUrlChar) with
      | some rest => some (str "https://" ++ run, rest)
      | none => none
    else none

/-- `.*?\]\((https:\/\/[^\s)]+\.png)\)`: the lazy dot (which matches no
newline) tries the continuation at each position, shortest prefix first,
and never crosses a newline. -/
def scanAlt : Str → Option (Str × Str)
  | [] => none
  | c :: cs =>
    match (match dropLit (str "](") (c :: cs) with
           | some s2 => matchUrlAt s2
           | none => none) with
    | some r => some r
    | none => if c = '\n' then none else scanAlt cs

/-- `!\[` then the lazy alt-text scan — the image part shared by both
regexes. -/
def matchImgAt (s : Str) : Option (Str × Str) :=
  match dropLit (str "![") s with
  | some s1 => scanAlt s1
  | none => none

/-- `[\s\S]*?` before the image part of the Latest regex: try the image at
every position, shortest prefix first. -/
def scanAnyToImg : Str → Option (Str × Str)
  | [] => none
  | c :: cs =>
    match matchImgAt (c :: cs) with
    | some r => some r
    | none => scanAnyToImg cs

/-- One attempt of the Latest regex
`\*\*Latest\*\* \(`(backtick)`([a-f0-9]+)`(backtick)`\)[\s\S]*?!\[.*?\]\((https:\/\/[^\s)]+\.png)\)`
at the start of `s`.  The greedy `[a-f0-9]+` is followed by a non-hex
character, so it can only take the maximal hex run. -/
def matchLatestAt (s : Str) : Option (HistoryImage × Str) :=
  match dropLit (str "**Latest** (`") s with
  | none => none
  | some s1 =>
    let sha := s1.takeWhile isHexDigitChar
    if sha.isEmpty then none
    else
      match dropLit (str "`)") (s1.dropWhile isHexDigitChar) with
      | none => none
      | some s2 => (scanAnyToImg s2).map fun r => (⟨sha, r.1⟩, r.2)

/-- `body.match(latestRegex)`: the leftmost position whose attempt
succeeds. -/
def findLatest : Str → Option HistoryImage
  | [] => none
  | c :: cs =>
    match matchLatestAt (c :: cs) with
    | some (r, _) => some r
    | none => findLatest cs

/-- One attempt of the history regex at the start of `s`.  `\s*\n` is greedy
whitespace then a newline; the continuation `!\[` starts with a
non-whitespace character, so the engine can only place that newline at the
very end of the maximal whitespace run. -/
def matchHistAt (s : Str) : Option (HistoryImage × Str) :=
  match dropLit (str "### `") s with
  | none => none
  | some s1 =>
    let sha := s1.takeWhile isHexDigitChar
    if sha.isEmpty then none
    else
      match dropLit (str "`") (s1.dropWhile isHexDigitChar) with
      | none => none
      | some s2 =>
        if (s2.takeWhile isJsWs).getLast? = some '\n' then
          (matchImgAt (s2.dropWhile isJsWs)).map fun r => (⟨sha, r.1⟩, r.2)
        else none

/-- The `historyRegex.exec` loop under the `g` flag: scan left to right; an
emitted match resumes the scan at its end (`lastIndex`).  Fuel bounds the
recursion; `s.length` steps always suffice because every match consumes at
least one character. -/
def findHistoryF : Nat → Str → List HistoryImage
  | 0, _ => []
  | _ + 1, [] => []
  | fuel + 1, c :: cs =>
    match matchHistAt (c :: cs) with
    | some (e, rest) => e :: findHistoryF fuel rest
    | none => findHistoryF fuel cs

def findHistory (s : Str) : List HistoryImage := findHistoryF s.length s

/-- `parseImagesFromComment` (workflow.ts:20-37): the Latest match, if any,
then every history match in document order. -/
def parseImagesFromComment (body : Str) : List HistoryImage :=
  (match findLatest body with
   | some lu => [lu]
   | none => []) ++ findHistory body

/-- `Array.prototype.join(sep)`. -/
def joinSep (sep : Str) : List Str → Str
  | [] => []
  | [x] => x
  | x :: y :: rest => x ++ sep ++ joinSep sep (y :: rest)

/-- `formatComment` (workflow.ts:207-237): the marker, a heading, the Latest
section, the collapsed history section when there are previous images, and
the About footer. -/
def formatComment (imageUrl : Str) (commitSha : Str)
    (previousImages : List HistoryImage) : Str :=
  let historySection : Str :=
    if previousImages.length > 0 then
      let imageList := joinSep (str "\n\n")
        (previousImages.map fun img =>
          str "### `" ++ img.sha ++ str "`\n![" ++ img.sha ++ str "](" ++ img.url ++ str ")")
      str "\n<details>\n<summary>Previous versions (" ++
        str (Nat.repr previousImages.length) ++ str ")</summary>\n\n" ++
        imageList ++ str "\n\n</details>\n"
    else []
  COMMENT_MARKER ++ str "\n## 🎨 PR Visual\n\n**Latest** (`" ++ commitSha ++
    str "`):\n\n![PR Infographic](" ++ imageUrl ++ str ")\n\n" ++ historySection ++
    str "\n<details>\n<summary>About this image</summary>\n\nGenerated automatically by [pr-visual](https://github.com/gitethanwoo/pr-visual).\n\n</details>"

/-- A plausible short revision id: a nonempty string over `[a-f0-9]`. -/
def HexId (s : Str) : Prop := s ≠ [] ∧ ∀ c ∈ s, isHexDigitChar c = true

/-- An artifact URL of the rendered form: `https://`, a nonempty middle
without whitespace or `)`, then `.png`. -/
def PngUrl (u : Str) : Prop :=
  ∃ m, u = str "https://" ++ m ++ str ".png" ∧ m ≠ [] ∧ ∀ c ∈ m, isUrlChar c = true

/-- A well-formed history entry. -/
def WfImage (e : HistoryImage) : Prop := HexId e.sha ∧ PngUrl e.url

/-! ## Workflow run (`src/worker/src/workflow.ts:43-176`)

`PRVisualWorkflow.run` is a sequence of named `step.do` calls.  Each
collaborator call is an input of the model: the Polar state lookup as an
`Option CustomerState` (`none` models the call throwing — the only way the
`try`/`catch` in the check-billing step takes its catch arm), every other
step's external work as a `StepOutcome` (`fail` models the step throwing
after the runtime has exhausted its retries, which propagates out of
`run`).  `balance`, a JS number, is modelled as `Int`.  The returned trace
lists the executed steps' names in invocation order. -/

structure ActiveMeter where
  balance : Int
deriving DecidableEq

structure CustomerState where
  id : Str
  activeMeters : List ActiveMeter
deriving DecidableEq

/-- The value the check-billing step returns when the lookup succeeds
(workflow.ts:61-65). -/
structure BillingCheck where
  customerId : Str
  hasCredits : Bool
  balance : Int
deriving DecidableEq

/-- Outcome of a workflow step or of the whole run: a value, or the error
that propagated. -/
inductive StepOutcome (α : Type) where
  | ok (val : α)
  | fail (err : Str)
deriving DecidableEq

/-- The shape of `run`'s return value: `success`, with `reason` on the
denial returns and `imageUrl` on the success return. -/
structure RunResult where
  success : Bool
  reason : Option Str
  imageUrl : Option Str
deriving DecidableEq

/-- The collaborator behaviour a single run meets. -/
structure WorkflowEnv where
  /-- `polar.customers.getStateExternal` — `none` when the call throws. -/
  getCustomerState : Option CustomerState
  /-- The fetch-files step's GitHub calls. -/
  fetchFiles : StepOutcome (List PRFile)
  /-- `generateBrief` on the given diff context. -/
  genBrief : Str → StepOutcome Str
  /-- `generateImage` + R2 upload on the given brief; yields the public URL. -/
  genImage : Str → StepOutcome Str
  /-- `findExistingComment` — the body of the marker comment, if one exists. -/
  existingComment : Option Str
  /-- `postPRComment` on the given rendered body. -/
  postComment : Str → StepOutcome Unit
  /-- `polar.events.ingest` in the report-usage step. -/
  reportUsage : StepOutcome Unit

/-- `PRVisualWorkflow.run` (workflow.ts:44-175). -/
def runWorkflow (env : WorkflowEnv) (payload : PRWebhookPayload) :
    StepOutcome RunResult × List Str :=
  let t0 := [str "check-billing"]
  let billingCheck : Option BillingCheck :=
    match env.getCustomerState with
    | some state =>
      some ⟨state.id, state.activeMeters.any fun m => decide (0 < m.balance),
        ((state.activeMeters.head?).map ActiveMeter.balance).getD 0⟩
    | none => none
  match billingCheck with
  | none => (.ok ⟨false, some (str "no_billing"), none⟩, t0)
  | some bc =>
    if !bc.hasCredits then (.ok ⟨false, some (str "no_credits"), none⟩, t0)
    else
      let t1 := t0 ++ [str "fetch-files"]
      match env.fetchFiles with
      | .fail e => (.fail e, t1)
      | .ok files =>
        let t2 := t1 ++ [str "build-context"]
        let diffContext :=
          buildDiffContext files payload.pull_request.title payload.pull_request.body
        let t3 := t2 ++ [str "generate-brief"]
        match env.genBrief diffContext with
        | .fail e => (.fail e, t3)
        | .ok brief =>
          let t4 := t3 ++ [str "generate-and-upload-image"]
          match env.genImage brief with
          | .fail e => (.fail e, t4)
          | .ok imageUrl =>
            let t5 := t4 ++ [str "post-comment"]
            let previousImages :=
              match env.existingComment with
              | some body => parseImagesFromComment body
              | none => []
            let commitSha := payload.pull_request.head.sha.take 7
            let commentBody := formatComment imageUrl commitSha previousImages
            match env.postComment commentBody with
            | .fail e => (.fail e, t5)
            | .ok _ =>
              let t6 := t5 ++ [str "report-usage"]
              match env.reportUsage with
              | .fail e => (.fail e, t6)
              | .ok _ => (.ok ⟨true, none, some imageUrl⟩, t6)

/-- The entitlement policy's verdict on a billing lookup outcome: the denial
reason `run` returns, or `none` when the run may proceed. -/
def entitlementDenial (cs : Option CustomerState) : Option Str :=
  match cs with
  | none => some (str "no_billing")
  | some st =>
    if st.activeMeters.any fun m => decide (0 < m.balance) then none
    else some (str "no_credits")

/-- The step names of a run that reaches the final step. -/
def fullStepTrace : List Str :=
  [str "check-billing", str "fetch-files", str "build-context", str "generate-brief",
    str "generate-and-upload-image", str "post-comment", str "report-usage"]

/-! ## Webhook handler (`src/worker/src/index.ts:71-123`) -/

/-- The externally observable side effects of the handler the claims order:
`JSON.parse(body)` and `env.PR_WORKFLOW.create`. -/
inductive HandlerEffect where
  | parsedBody
  | workflowCreate (id : Str)
deriving DecidableEq

/-- Outcome of `env.PR_WORKFLOW.create`: created, rejected as a duplicate
(the error whose message contains "already exists", which the handler
catches), or another failure (which the handler re-throws). -/
inductive CreateOutcome where
  | ok
  | alreadyExists
  | failure (msg : Str)
deriving DecidableEq

structure HandlerResponse where
  status : Nat
  body : Str
deriving DecidableEq

/-- An inbound POST to `/webhooks/github`: the two headers and the raw
body. -/
structure WebhookRequest where
  signatureHeader : Option Str
  eventHeader : Option Str
  body : Str

/-- `handleGitHubWebhook` (index.ts:71-123).  `JSON.parse` is an external
primitive and enters as `parsePayload`; a `Response` built with no status
carries 200. -/
def handleGitHubWebhook (hmacSha256 : Str → Str → List Nat)
    (parsePayload : Str → PRWebhookPayload) (secret : Str)
    (create : Str → CreateOutcome) (req : WebhookRequest) :
    StepOutcome HandlerResponse × List HandlerEffect :=
  match req.signatureHeader with
  | none => (.ok ⟨401, str "Missing signature"⟩, [])
  | some signature =>
    if !verifyWebhookSignature hmacSha256 req.body signature secret then
      (.ok ⟨401, str "Invalid signature"⟩, [])
    else if req.eventHeader ≠ some (str "pull_request") then
      (.ok ⟨200, str "Ignored event"⟩, [])
    else
      let payload := parsePayload req.body
      if !([str "opened", str "synchronize", str "reopened"].contains payload.action) then
        (.ok ⟨200, str "Ignored action"⟩, [.parsedBody])
      else
        match create (workflowId payload) with
        | .failure msg => (.fail msg, [.parsedBody, .workflowCreate (workflowId payload)])
        | _ => (.ok ⟨200, str "Workflow triggered"⟩,
            [.parsedBody, .workflowCreate (workflowId payload)])

/-- The response table of the claim, written from its words: 401 before the
body is parsed for a missing or invalid signature, 200 "Ignored event" for
other event types, 200 "Ignored action" for non-actionable actions, and a
200 acceptance otherwise.  (The response body strings are the source's; the
claim fixes only the statuses and the two "Ignored" bodies.) -/
def webhookSpecResponse (hmacSha256 : Str → Str → List Nat)
    (parsePayload : Str → PRWebhookPayload) (secret : Str) (req : WebhookRequest) :
    StepOutcome HandlerResponse × List HandlerEffect :=
  match req.signatureHeader with
  | none => (.ok ⟨401, str "Missing signature"⟩, [])
  | some signature =>
    if !verifyWebhookSignature hmacSha256 req.body signature secret then
      (.ok ⟨401, str "Invalid signature"⟩, [])
    else if req.eventHeader ≠ some (str "pull_request") then
      (.ok ⟨200, str "Ignored event"⟩, [])
    else if !([str "opened", str "synchronize", str "reopened"].contains
        (parsePayload req.body).action) then
      (.ok ⟨200, str "Ignored action"⟩, [.parsedBody])
    else
      (.ok ⟨200, str "Workflow triggered"⟩,
        [.parsedBody, .workflowCreate (workflowId (parsePayload req.body))])

/-! ## General lemmas -/

theorem takeWhile_all_append (p : Char → Bool) (l r : Str) (h : ∀ c ∈ l, p c = true) :
    (l ++ r).takeWhile p = l ++ r.takeWhile p := by
  induction l with
  | nil => rfl
  | cons c cs ih =>
    simp [List.takeWhile_cons, h c (by simp), ih fun x hx => h x (by simp [hx])]

theorem dropWhile_all_append (p : Char → Bool) (l r : Str) (h : ∀ c ∈ l, p c = true) :
    (l ++ r).dropWhile p = r.dropWhile p := by
  induction l with
  | nil => rfl
  | cons c cs ih =>
    simp [List.dropWhile_cons, h c (by simp), ih fun x hx => h x (by simp [hx])]

theorem dropLit_self (p s : Str) : dropLit p (p ++ s) = some s := by
  induction p with
  | nil => rfl
  | cons c cs ih => simp [dropLit, ih]

theorem lor_eq_zero_iff (a b : Nat) : a ||| b = 0 ↔ a = 0 ∧ b = 0 := by
  constructor
  · intro h
    have key : ∀ i, (a.testBit i || b.testBit i) = false := by
      intro i
      have h2 := congrArg (fun n => Nat.testBit n i) h
      simpa [Nat.testBit_lor] using h2
    constructor
    · apply Nat.eq_of_testBit_eq
      intro i
      simpa using (Bool.or_eq_false_iff.mp (key i)).1
    · apply Nat.eq_of_testBit_eq
      intro i
      simpa using (Bool.or_eq_false_iff.mp (key i)).2
  · rintro ⟨rfl, rfl⟩; rfl

theorem foldl_lor_eq_zero (l : List Nat) (acc : Nat) :
    l.foldl (fun r v => r ||| v) acc = 0 ↔ acc = 0 ∧ ∀ x ∈ l, x = 0 := by
  induction l generalizing acc with
  | nil => simp
  | cons x xs ih =>
    rw [List.foldl_cons, ih, lor_eq_zero_iff]
    constructor
    · rintro ⟨⟨h1, h2⟩, h3⟩
      exact ⟨h1, by simpa [h2] using h3⟩
    · rintro ⟨h1, h2⟩
      exact ⟨⟨h1, h2 x (by simp)⟩, fun y hy => h2 y (by simp [hy])⟩

theorem charToNat_inj {c d : Char} (h : c.toNat = d.toNat) : c = d :=
  Char.eq_of_val_eq (UInt32.ext h)

/-- The pointwise XOR terms all vanish exactly on equal strings of equal
length. -/
theorem zipWith_xor_eq_zero (a b : Str) (hlen : a.length = b.length) :
    (∀ x ∈ List.zipWith (fun x y : Char => x.toNat ^^^ y.toNat) a b, x = 0) ↔ a = b := by
  induction a generalizing b with
  | nil =>
    cases b with
    | nil => simp
    | cons d ds => simp at hlen
  | cons c cs ih =>
    cases b with
    | nil => simp at hlen
    | cons d ds =>
      simp only [List.zipWith_cons_cons, List.mem_cons, forall_eq_or_imp]
      constructor
      · rintro ⟨h1, h2⟩
        have hc : c = d := charToNat_inj (Nat.xor_eq_zero.mp h1)
        have hcs : cs = ds := (ih ds (by simpa using hlen)).mp h2
        rw [hc, hcs]
      · intro h
        injection h with h1 h2
        subst h1
        subst h2
        refine ⟨by simp [Nat.xor_eq_zero], ?_⟩
        exact (ih cs rfl).mpr rfl

/-- The XOR-accumulate comparison of `timingSafeEqual` is string equality. -/
theorem timingSafeEqual_iff (a b : Str) : timingSafeEqual a b = true ↔ a = b := by
  unfold timingSafeEqual
  by_cases hlen : a.length = b.length
  · rw [if_neg (by simpa using hlen), beq_iff_eq, foldl_lor_eq_zero]
    simp only [true_and]
    exact zipWith_xor_eq_zero a b hlen
  · rw [if_pos (by simpa using hlen)]
    simp only [Bool.false_eq_true, false_iff]
    intro h
    exact hlen (by rw [h])

/-! ## C8 — signature verification -/

/-- C8: `verifyWebhookSignature` accepts exactly the signature equal to
`sha256=` followed by the lowercase hex encoding of the HMAC digest;
`timingSafeEqual` is equality of strings; and the hex encoding uses only the
lowercase digits `0-9a-f`. -/
theorem c8_signature_verification (hmacSha256 : Str → Str → List Nat)
    (payload signature secret : Str) :
    (verifyWebhookSignature hmacSha256 payload signature secret = true ↔
      signature = str "sha256=" ++ arrayBufferToHex (hmacSha256 secret payload)) ∧
    (∀ a b : Str, timingSafeEqual a b = true ↔ a = b) ∧
    (∀ bytes : List Nat, ∀ c ∈ arrayBufferToHex bytes, c ∈ str "0123456789abcdef") := by
  refine ⟨?_, timingSafeEqual_iff, ?_⟩
  · rw [verifyWebhookSignature, timingSafeEqual_iff]
    exact eq_comm
  · intro bytes c hc
    simp only [arrayBufferToHex, List.mem_flatten, List.mem_map] at hc
    obtain ⟨l, ⟨b, _, rfl⟩, hcl⟩ := hc
    have digit : ∀ n < 16, Nat.digitChar n ∈ str "0123456789abcdef" := by decide
    simp only [List.mem_cons, List.not_mem_nil, or_false] at hcl
    rcases hcl with h | h
    · subst h
      exact digit _ (Nat.mod_lt _ (by norm_num))
    · subst h
      exact digit _ (Nat.mod_lt _ (by norm_num))

/-! ## C1 — the idempotency key -/

/-- C1: the workflow id is a deterministic function of the four subject
fields, and for a fixed installation, repository and number it is injective
in the head revision: a different head revision always gives a different
key. -/
theorem c1_idempotency_key (p q : PRWebhookPayload)
    (hinst : p.installation.id = q.installation.id)
    (hrepo : p.repository.id = q.repository.id)
    (hnum : p.pull_request.number = q.pull_request.number) :
    (p.pull_request.head.sha = q.pull_request.head.sha → workflowId p = workflowId q) ∧
    (p.pull_request.head.sha ≠ q.pull_request.head.sha → workflowId p ≠ workflowId q) := by
  constructor
  · intro hsha
    simp [workflowId, hinst, hrepo, hnum, hsha]
  · intro hsha heq
    apply hsha
    simp only [workflowId, hinst, hrepo, hnum, List.append_assoc] at heq
    exact List.append_cancel_left (List.append_cancel_left (List.append_cancel_left
      (List.append_cancel_left (List.append_cancel_left (List.append_cancel_left heq)))))

/-- C1 witness: the key of the test fixture
(installation 7, repository 99, PR 42, sha `deadbeef`) is determined, and a
re-push to sha `cafebabe` changes it. -/
theorem c1_idempotency_key_witness :
    (workflowId ⟨str "opened", 42, ⟨42, str "t", none, ⟨str "deadbeef", str "b"⟩⟩,
        ⟨99, str "o/r", ⟨str "o"⟩, str "r"⟩, ⟨7⟩⟩ =
      workflowId ⟨str "synchronize", 42, ⟨42, str "t2", none, ⟨str "deadbeef", str "b"⟩⟩,
        ⟨99, str "o/r", ⟨str "o"⟩, str "r"⟩, ⟨7⟩⟩) ∧
    (workflowId ⟨str "opened", 42, ⟨42, str "t", none, ⟨str "deadbeef", str "b"⟩⟩,
        ⟨99, str "o/r", ⟨str "o"⟩, str "r"⟩, ⟨7⟩⟩ ≠
      workflowId ⟨str "opened", 42, ⟨42, str "t", none, ⟨str "cafebabe", str "b"⟩⟩,
        ⟨99, str "o/r", ⟨str "o"⟩, str "r"⟩, ⟨7⟩⟩) := by
  constructor
  · exact (c1_idempotency_key
      ⟨str "opened", 42, ⟨42, str "t", none, ⟨str "deadbeef", str "b"⟩⟩,
        ⟨99, str "o/r", ⟨str "o"⟩, str "r"⟩, ⟨7⟩⟩
      ⟨str "synchronize", 42, ⟨42, str "t2", none, ⟨str "deadbeef", str "b"⟩⟩,
        ⟨99, str "o/r", ⟨str "o"⟩, str "r"⟩, ⟨7⟩⟩ rfl rfl rfl).1 rfl
  · exact (c1_idempotency_key
      ⟨str "opened", 42, ⟨42, str "t", none, ⟨str "deadbeef", str "b"⟩⟩,
        ⟨99, str "o/r", ⟨str "o"⟩, str "r"⟩, ⟨7⟩⟩
      ⟨str "opened", 42, ⟨42, str "t", none, ⟨str "cafebabe", str "b"⟩⟩,
        ⟨99, str "o/r", ⟨str "o"⟩, str "r"⟩, ⟨7⟩⟩ rfl rfl rfl).2 (by decide)

/-! ## C4 — lockfile and patchless exclusion -/

theorem buildLoop_filter_eligible (files : List PRFile) (n : Nat) :
    buildLoop files n = buildLoop (files.filter eligibleFile) n := by
  induction files generalizing n with
  | nil => rfl
  | cons f rest ih =>
    by_cases h1 : skipFile f
    · simp [buildLoop, h1, eligibleFile, ih]
    · by_cases h2 : jsFalsy f.patch
      · simp [buildLoop, h1, h2, eligibleFile, ih]
      · simp only [List.filter_cons, eligibleFile, h1, h2, Bool.not_false, Bool.and_self,
          if_pos]
        rw [buildLoop, buildLoop]
        simp only [h1, h2, Bool.false_eq_true, if_false]
        rw [ih]

/-- C4: a file whose name ends in a configured lockfile suffix, or whose
patch is absent, never contributes to the output — removing every such file
leaves `buildDiffContext` unchanged, whatever the file's position or size. -/
theorem c4_excluded_files (files : List PRFile) (title : Str) (body : Option Str) :
    buildDiffContext files title body =
      buildDiffContext (files.filter eligibleFile) title body ∧
    ∀ f : PRFile,
      ((∃ suffix ∈ SKIP_FILES, suffix.isSuffixOf f.filename = true) ∨ f.patch = none) →
      eligibleFile f = false := by
  constructor
  · unfold buildDiffContext
    rw [buildLoop_filter_eligible]
  · rintro f (⟨suffix, hs, hsuf⟩ | hnone)
    · have : skipFile f = true := by
        simp only [skipFile, List.any_eq_true]
        exact ⟨suffix, hs, hsuf⟩
      simp [eligibleFile, this]
    · simp [eligibleFile, jsFalsy, hnone]

/-! ## C3 — the diff-context byte cap -/

/-- C3 counterexample: with no changed files and a 50,001-character title the
output is the 50,013-character header alone — the header is counted but
never capped, so the output exceeds the cap. -/
theorem c3_cap_counterexample :
    MAX_DIFF_BYTES < (buildDiffContext [] (List.replicate 50001 'a') none).length := by
  have key : ∀ t : Str, buildDiffContext [] t none =
      str "PR Title: " ++ t ++ str "\n" ++ str "\n" := by
    intro t
    rw [buildDiffContext, buildLoop, diffHeader]
    simp [jsFalsy]
  rw [key]
  simp only [List.length_append, List.length_replicate]
  have h1 : (str "PR Title: ").length = 10 := rfl
  have h2 : (str "\n").length = 1 := rfl
  rw [h1, h2]
  have h3 : MAX_DIFF_BYTES = 50000 := rfl
  omega

theorem buildLoop_length_bound (files : List PRFile) (tb : Nat) :
    tb + ((buildLoop files tb).flatten).length ≤
      max tb MAX_DIFF_BYTES + truncationMarker.length := by
  induction files generalizing tb with
  | nil =>
    simp only [buildLoop, List.flatten_nil, List.length_nil, Nat.add_zero]
    exact le_add_of_le_of_nonneg (le_max_left _ _) (Nat.zero_le _)
  | cons f rest ih =>
    by_cases h1 : skipFile f
    · simpa [buildLoop, h1] using ih tb
    · by_cases h2 : jsFalsy f.patch
      · simpa [buildLoop, h1, h2] using ih tb
      · rw [buildLoop]
        simp only [h1, h2, Bool.false_eq_true, if_false]
        by_cases hcap : tb + (fileEntry f (f.patch.getD [])).length > MAX_DIFF_BYTES
        · rw [if_pos hcap]
          simp only [List.flatten_cons, List.flatten_nil, List.append_nil]
          exact Nat.add_le_add_right (le_max_left _ _) _
        · rw [if_neg hcap]
          simp only [List.flatten_cons, List.length_append]
          have h3 := ih (tb + (fileEntry f (f.patch.getD [])).length)
          have h4 : tb + (fileEntry f (f.patch.getD [])).length ≤ MAX_DIFF_BYTES := by
            omega
          have h5 : max (tb + (fileEntry f (f.patch.getD [])).length) MAX_DIFF_BYTES =
              MAX_DIFF_BYTES := max_eq_right h4
          rw [h5] at h3
          have h6 : MAX_DIFF_BYTES ≤ max tb MAX_DIFF_BYTES := le_max_right _ _
          omega

theorem buildLoop_truncated_suffix (files : List PRFile) (tb : Nat)
    (h : diffTruncated files tb = true) :
    ∃ pre, ((buildLoop files tb).flatten) = pre ++ truncationMarker := by
  induction files generalizing tb with
  | nil => simp [diffTruncated] at h
  | cons f rest ih =>
    by_cases h1 : skipFile f
    · rw [diffTruncated, if_pos h1] at h
      obtain ⟨pre, hpre⟩ := ih tb h
      refine ⟨pre, ?_⟩
      rw [buildLoop, if_pos h1]
      exact hpre
    · by_cases h2 : jsFalsy f.patch
      · rw [diffTruncated, if_neg h1, if_pos h2] at h
        obtain ⟨pre, hpre⟩ := ih tb h
        refine ⟨pre, ?_⟩
        rw [buildLoop, if_neg h1, if_pos h2]
        exact hpre
      · rw [diffTruncated, if_neg h1, if_neg h2] at h
        rw [buildLoop, if_neg h1, if_neg h2]
        by_cases hcap : tb + (fileEntry f (f.patch.getD [])).length > MAX_DIFF_BYTES
        · rw [if_pos hcap] at h ⊢
          exact ⟨[], by simp⟩
        · rw [if_neg hcap] at h ⊢
          obtain ⟨pre, hpre⟩ := ih _ h
          exact ⟨fileEntry f (f.patch.getD []) ++ pre, by simp [hpre]⟩

/-- C3 amended: the output can exceed the cap only by the uncounted header
and the truncation marker — its length is bounded by
`max (header length) cap + marker length`; and whenever appending the next
block would exceed the cap, assembly stops and the output ends in the
truncation marker. -/
theorem c3_cap_amended (files : List PRFile) (title : Str) (body : Option Str) :
    (buildDiffContext files title body).length ≤
      max (diffHeader title body).length MAX_DIFF_BYTES + truncationMarker.length ∧
    (diffTruncated files (diffHeader title body).length = true →
      truncationMarker.isSuffixOf (buildDiffContext files title body) = true) := by
  constructor
  · have h := buildLoop_length_bound files (diffHeader title body).length
    simp only [buildDiffContext, List.flatten_cons, List.length_append]
    omega
  · intro h
    obtain ⟨pre, hpre⟩ := buildLoop_truncated_suffix files _ h
    rw [List.isSuffixOf_iff_suffix]
    exact ⟨diffHeader title body ++ pre, by simp [buildDiffContext, hpre]⟩

/-! ## C2, C10, C7 — the workflow run -/

theorem entitlementDenial_none : entitlementDenial none = some (str "no_billing") := rfl

theorem entitlementDenial_some (st : CustomerState) :
    entitlementDenial (some st) =
      if st.activeMeters.any fun m => decide (0 < m.balance) then none
      else some (str "no_credits") := rfl

/-- A denied entitlement ends the run at once: `run` returns the denial
record and only the check-billing step ever executed. -/
theorem runWorkflow_denied (env : WorkflowEnv) (payload : PRWebhookPayload) (r : Str)
    (h : entitlementDenial env.getCustomerState = some r) :
    runWorkflow env payload = (.ok ⟨false, some r, none⟩, [str "check-billing"]) := by
  cases hcs : env.getCustomerState with
  | none =>
    rw [hcs, entitlementDenial_none] at h
    injection h with h
    subst h
    unfold runWorkflow
    rw [hcs]
  | some st =>
    rw [hcs, entitlementDenial_some] at h
    by_cases hcv : (st.activeMeters.any fun m => decide (0 < m.balance)) = true
    · rw [if_pos hcv] at h
      cases h
    · have hcf : (st.activeMeters.any fun m => decide (0 < m.balance)) = false := by
        simpa using hcv
      rw [if_neg hcv] at h
      injection h with h
      subst h
      unfold runWorkflow
      rw [hcs]
      dsimp only
      rw [hcf]
      rfl

/-- C2: the entitlement check is the first step of every run and executes
exactly once; whenever the billing lookup fails or no meter has a positive
balance, the run ends at once with reason `no_billing` resp. `no_credits`
and no other step — brief, image, storage, comment or usage reporting —
is ever invoked. -/
theorem c2_entitlement_gate (env : WorkflowEnv) (payload : PRWebhookPayload) :
    (runWorkflow env payload).2.head? = some (str "check-billing") ∧
    (runWorkflow env payload).2.count (str "check-billing") = 1 ∧
    (∀ r, entitlementDenial env.getCustomerState = some r →
      (runWorkflow env payload).1 = .ok ⟨false, some r, none⟩ ∧
      (runWorkflow env payload).2 = [str "check-billing"]) := by
  refine ⟨?_, ?_, ?_⟩
  · unfold runWorkflow
    repeat' (first | dsimp only | split)
    all_goals rfl
  · unfold runWorkflow
    repeat' (first | dsimp only | split)
    all_goals decide
  · intro r hr
    rw [runWorkflow_denied env payload r hr]
    exact ⟨rfl, rfl⟩

/-- C10: a throwing billing lookup is caught inside the check-billing step
and mapped to `null`: the step itself yields a value rather than an error
(so the runtime has nothing to retry), and the run returns `no_billing`
having executed no other step. -/
theorem c10_billing_lookup_catch (env : WorkflowEnv) (payload : PRWebhookPayload)
    (h : env.getCustomerState = none) :
    runWorkflow env payload =
      (.ok ⟨false, some (str "no_billing"), none⟩, [str "check-billing"]) := by
  apply runWorkflow_denied
  rw [h]
  rfl

/-- C10 witness: a concrete run whose billing lookup throws. -/
theorem c10_billing_lookup_catch_witness :
    runWorkflow ⟨none, .ok [], fun _ => .ok [], fun _ => .ok [], none,
        fun _ => .ok (), .ok ()⟩
      ⟨str "opened", 1, ⟨1, str "t", none, ⟨str "deadbeef", str "b"⟩⟩,
        ⟨1, str "o/r", ⟨str "o"⟩, str "r"⟩, ⟨1⟩⟩ =
      (.ok ⟨false, some (str "no_billing"), none⟩, [str "check-billing"]) :=
  c10_billing_lookup_catch _ _ rfl

/-- C7 counterexample: a run in which every step up to and including the
comment post succeeds and only usage reporting fails.  The claim says the
run still ends successfully with its artifact URL; in fact the error
propagates out of `run` and the success return is never reached. -/
theorem c7_reporting_counterexample :
    (runWorkflow ⟨some ⟨str "cus", [⟨1⟩]⟩, .ok [], fun _ => .ok (str "brief"),
        fun _ => .ok (str "https://i/x.png"), none, fun _ => .ok (), .fail (str "boom")⟩
      ⟨str "opened", 1, ⟨1, str "t", none, ⟨str "deadbeef", str "b"⟩⟩,
        ⟨1, str "o/r", ⟨str "o"⟩, str "r"⟩, ⟨1⟩⟩).1 = .fail (str "boom") ∧
    (runWorkflow ⟨some ⟨str "cus", [⟨1⟩]⟩, .ok [], fun _ => .ok (str "brief"),
        fun _ => .ok (str "https://i/x.png"), none, fun _ => .ok (), .fail (str "boom")⟩
      ⟨str "opened", 1, ⟨1, str "t", none, ⟨str "deadbeef", str "b"⟩⟩,
        ⟨1, str "o/r", ⟨str "o"⟩, str "r"⟩, ⟨1⟩⟩).2 = fullStepTrace := by
  constructor
  · rfl
  · rfl

/-- C7 amended: the usage-reporting step still runs only after the comment
has been posted (it appears only in the full trace, after `post-comment`),
but its failure is not swallowed: it propagates, the run ends with that
error, and the run never returns success. -/
theorem c7_reporting_amended (env : WorkflowEnv) (payload : PRWebhookPayload) (e : Str)
    (h : env.reportUsage = .fail e) :
    ((str "report-usage") ∈ (runWorkflow env payload).2 →
      (runWorkflow env payload).2 = fullStepTrace ∧
      (runWorkflow env payload).1 = .fail e) ∧
    (∀ res, (runWorkflow env payload).1 = .ok res → res.success = false) := by
  unfold runWorkflow
  rw [h]
  repeat' (first | dsimp only | split)
  all_goals refine ⟨fun hmem => ?_, fun res hres => ?_⟩
  all_goals first
    | exact absurd hmem (by decide)
    | exact ⟨rfl, rfl⟩
    | (injection hres with hres2; subst hres2; rfl)
    | cases hres

/-- C7 amended witness: the concrete failing-reporting run above, through
the amended theorem. -/
theorem c7_reporting_amended_witness :
    (runWorkflow ⟨some ⟨str "cus", [⟨1⟩]⟩, .ok [], fun _ => .ok (str "brief"),
        fun _ => .ok (str "https://i/x.png"), none, fun _ => .ok (), .fail (str "boomw")⟩
      ⟨str "opened", 1, ⟨1, str "tw", none, ⟨str "deadbeef", str "b"⟩⟩,
        ⟨1, str "o/r", ⟨str "o"⟩, str "r"⟩, ⟨1⟩⟩).2 = fullStepTrace ∧
    (runWorkflow ⟨some ⟨str "cus", [⟨1⟩]⟩, .ok [], fun _ => .ok (str "brief"),
        fun _ => .ok (str "https://i/x.png"), none, fun _ => .ok (), .fail (str "boomw")⟩
      ⟨str "opened", 1, ⟨1, str "tw", none, ⟨str "deadbeef", str "b"⟩⟩,
        ⟨1, str "o/r", ⟨str "o"⟩, str "r"⟩, ⟨1⟩⟩).1 = .fail (str "boomw") :=
  (c7_reporting_amended _ _ _ rfl).1 (by decide)

/-! ## C9 — webhook response arms -/

/-- C9: on every request the handler realises the claim's response table —
401 (with no parse and no workflow-submission effect) for a missing or
invalid signature, 200 "Ignored event" before parsing for other event
types, 200 "Ignored action" for non-actionable pull-request actions, and
200 acceptance otherwise — whenever the workflow engine keeps its
submit-contract of `accepted` or `already exists`. -/
theorem c9_webhook_responses (hmacSha256 : Str → Str → List Nat)
    (parsePayload : Str → PRWebhookPayload) (secret : Str)
    (create : Str → CreateOutcome) (req : WebhookRequest)
    (hcreate : ∀ id, create id = .ok ∨ create id = .alreadyExists) :
    handleGitHubWebhook hmacSha256 parsePayload secret create req =
      webhookSpecResponse hmacSha256 parsePayload secret req := by
  unfold handleGitHubWebhook webhookSpecResponse
  cases req.signatureHeader with
  | none => rfl
  | some signature =>
    dsimp only
    cases hv : verifyWebhookSignature hmacSha256 req.body signature secret with
    | false => rfl
    | true =>
      by_cases he : req.eventHeader = some (str "pull_request")
      · rw [if_neg (not_not_intro he), if_neg (not_not_intro he)]
        cases ha : ([str "opened", str "synchronize", str "reopened"].contains
            (parsePayload req.body).action) with
        | false => rfl
        | true =>
          rcases hcreate (workflowId (parsePayload req.body)) with hc | hc <;> rw [hc]
      · rw [if_pos he, if_pos he]

/-- C9 witness: a concrete request with no signature header, against an
engine that always accepts, through the response-table theorem; the response
is the 401 with no effects. -/
theorem c9_webhook_responses_witness :
    handleGitHubWebhook (fun _ _ => []) (fun _ =>
        ⟨str "opened", 1, ⟨1, str "t", none, ⟨str "deadbeef", str "b"⟩⟩,
          ⟨1, str "o/r", ⟨str "o"⟩, str "r"⟩, ⟨1⟩⟩) (str "secret")
      (fun _ => .ok) ⟨none, none, str "x"⟩ =
      webhookSpecResponse (fun _ _ => []) (fun _ =>
        ⟨str "opened", 1, ⟨1, str "t", none, ⟨str "deadbeef", str "b"⟩⟩,
          ⟨1, str "o/r", ⟨str "o"⟩, str "r"⟩, ⟨1⟩⟩) (str "secret") ⟨none, none, str "x"⟩ ∧
    webhookSpecResponse (fun _ _ => []) (fun _ =>
        ⟨str "opened", 1, ⟨1, str "t", none, ⟨str "deadbeef", str "b"⟩⟩,
          ⟨1, str "o/r", ⟨str "o"⟩, str "r"⟩, ⟨1⟩⟩) (str "secret") ⟨none, none, str "x"⟩ =
      (.ok ⟨401, str "Missing signature"⟩, []) :=
  ⟨c9_webhook_responses _ _ _ _ _ (fun _ => Or.inl rfl), rfl⟩

/-! ## C5, C6 — the comment history round-trip

First the matcher infrastructure: sizes (to resolve the fuel of the
`exec`-loop), a characterization of `dropLit`, and step lemmas for the
scanners. -/

theorem dropLit_eq_some_iff (p : Str) : ∀ s t : Str, dropLit p s = some t ↔ s = p ++ t := by
  induction p with
  | nil =>
    intro s t
    simp [dropLit, eq_comm]
  | cons x xs ih =>
    intro s t
    cases s with
    | nil => simp [dropLit]
    | cons c cs =>
      by_cases hx : x = c
      · subst hx
        rw [dropLit, if_pos rfl, ih]
        simp
      · rw [dropLit, if_neg hx]
        simp [Ne.symm hx]

theorem dropLit_length {p s t : Str} (h : dropLit p s = some t) :
    t.length + p.length = s.length := by
  rw [dropLit_eq_some_iff] at h
  subst h
  simp [Nat.add_comm]

theorem length_dropWhile_le (p : Char → Bool) (l : Str) :
    (l.dropWhile p).length ≤ l.length := by
  induction l with
  | nil => simp
  | cons c cs ih =>
    rw [List.dropWhile_cons]
    by_cases hp : p c = true
    · rw [if_pos hp]
      simp only [List.length_cons]
      omega
    · rw [if_neg hp]

theorem matchUrlAt_length {s : Str} {r : Str × Str} (h : matchUrlAt s = some r) :
    r.2.length < s.length := by
  unfold matchUrlAt at h
  cases hd : dropLit (str "https://") s with
  | none => rw [hd] at h; cases h
  | some s1 =>
    rw [hd] at h
    dsimp only at h
    have hs1 := dropLit_length hd
    by_cases hc : (5 ≤ (s1.takeWhile isUrlChar).length &&
        List.isSuffixOf (str ".png") (s1.takeWhile isUrlChar)) = true
    · rw [if_pos hc] at h
      cases hdw : dropLit (str ")") (s1.dropWhile isUrlChar) with
      | none => rw [hdw] at h; cases h
      | some rest =>
        rw [hdw] at h
        simp only [Option.some.injEq] at h
        subst h
        have h1 := dropLit_length hdw
        have h2 := length_dropWhile_le isUrlChar s1
        have h3 : (str ")").length = 1 := rfl
        have h4 : (str "https://").length = 8 := rfl
        dsimp only
        omega
    · rw [if_neg hc] at h
      cases h

theorem scanAlt_length : ∀ {s : Str} {r : Str × Str}, scanAlt s = some r → r.2.length < s.length := by
  intro s
  induction s with
  | nil => intro r h; cases h
  | cons c cs ih =>
    intro r h
    rw [scanAlt] at h
    cases hd : dropLit (str "](") (c :: cs) with
    | some s2 =>
      rw [hd] at h
      dsimp only at h
      cases hu : matchUrlAt s2 with
      | some r2 =>
        rw [hu] at h
        simp only [Option.some.injEq] at h
        subst h
        have h1 := matchUrlAt_length hu
        have h2 := dropLit_length hd
        have h3 : (str "](").length = 2 := rfl
        have h4 : (c :: cs).length = cs.length + 1 := by simp
        omega
      | none =>
        rw [hu] at h
        by_cases hc : c = '\n'
        · rw [if_pos hc] at h; cases h
        · rw [if_neg hc] at h
          have := ih h
          simp only [List.length_cons]
          omega
    | none =>
      rw [hd] at h
      dsimp only at h
      by_cases hc : c = '\n'
      · rw [if_pos hc] at h; cases h
      · rw [if_neg hc] at h
        have := ih h
        simp only [List.length_cons]
        omega

theorem matchImgAt_length {s : Str} {r : Str × Str} (h : matchImgAt s = some r) :
    r.2.length < s.length := by
  unfold matchImgAt at h
  cases hd : dropLit (str "![") s with
  | none => rw [hd] at h; cases h
  | some s1 =>
    rw [hd] at h
    dsimp only at h
    have h1 := scanAlt_length h
    have h2 := dropLit_length hd
    omega

theorem matchHistAt_length {s : Str} {e : HistoryImage} {rest : Str}
    (h : matchHistAt s = some (e, rest)) : rest.length < s.length := by
  unfold matchHistAt at h
  cases hd : dropLit (str "### `") s with
  | none => rw [hd] at h; cases h
  | some s1 =>
    rw [hd] at h
    dsimp only at h
    by_cases he : (s1.takeWhile isHexDigitChar).isEmpty = true
    · rw [if_pos he] at h; cases h
    · rw [if_neg he] at h
      cases hb : dropLit (str "`") (s1.dropWhile isHexDigitChar) with
      | none => rw [hb] at h; cases h
      | some s2 =>
        rw [hb] at h
        dsimp only at h
        by_cases hw : (s2.takeWhile isJsWs).getLast? = some '\n'
        · rw [if_pos hw] at h
          cases hi : matchImgAt (s2.dropWhile isJsWs) with
          | none => rw [hi] at h; cases h
          | some r2 =>
            rw [hi] at h
            obtain ⟨u, rr⟩ := r2
            dsimp only [Option.map] at h
            injection h with h
            have h8 : rest = rr := (congrArg Prod.snd h).symm
            subst h8
            have h1 := matchImgAt_length hi
            dsimp only at h1
            have h2 := dropLit_length hd
            have h3 := dropLit_length hb
            have h4 := length_dropWhile_le isJsWs s2
            have h5 := length_dropWhile_le isHexDigitChar s1
            have h6 : (str "### `").length = 5 := rfl
            have h7 : (str "`").length = 1 := rfl
            omega
        · rw [if_neg hw] at h; cases h

theorem findHistoryF_congr : ∀ (n : Nat) (s : Str), s.length ≤ n →
    ∀ f1 f2, s.length ≤ f1 → s.length ≤ f2 → findHistoryF f1 s = findHistoryF f2 s := by
  intro n
  induction n with
  | zero =>
    intro s hs f1 f2 _ _
    have : s = [] := List.eq_nil_of_length_eq_zero (Nat.le_zero.mp hs)
    subst this
    cases f1 <;> cases f2 <;> rfl
  | succ n ih =>
    intro s hs f1 f2 h1 h2
    cases s with
    | nil => cases f1 <;> cases f2 <;> rfl
    | cons c cs =>
      simp only [List.length_cons] at hs h1 h2
      cases f1 with
      | zero => omega
      | succ f1' =>
        cases f2 with
        | zero => omega
        | succ f2' =>
          rw [findHistoryF, findHistoryF]
          cases hm : matchHistAt (c :: cs) with
          | none =>
            dsimp only
            exact ih cs (by omega) f1' f2' (by omega) (by omega)
          | some er =>
            obtain ⟨e, rest⟩ := er
            have hlen := matchHistAt_length hm
            simp only [List.length_cons] at hlen
            dsimp only
            rw [ih rest (by omega) f1' f2' (by omega) (by omega)]

theorem findHistory_cons_none {c : Char} {cs : Str} (h : matchHistAt (c :: cs) = none) :
    findHistory (c :: cs) = findHistory cs := by
  unfold findHistory
  simp only [List.length_cons]
  rw [findHistoryF, h]

theorem findHistory_cons_some {c : Char} {cs : Str} {e : HistoryImage} {rest : Str}
    (h : matchHistAt (c :: cs) = some (e, rest)) :
    findHistory (c :: cs) = e :: findHistory rest := by
  unfold findHistory
  simp only [List.length_cons]
  rw [findHistoryF, h]
  have hlen := matchHistAt_length h
  simp only [List.length_cons] at hlen
  dsimp only
  rw [findHistoryF_congr rest.length rest le_rfl cs.length rest.length (by omega) le_rfl]

/-! Character-class facts and literal reshaping. -/

theorem strHist_cons : str "### `" = '#' :: '#' :: '#' :: ' ' :: '`' :: [] := rfl

theorem hexChar_ne {c : Char} (h : isHexDigitChar c = true) :
    c ≠ ']' ∧ c ≠ '\n' ∧ c ≠ '#' ∧ c ≠ ' ' := by
  refine ⟨?_, ?_, ?_, ?_⟩ <;> (rintro rfl; revert h; decide)

theorem urlChar_ne {c : Char} (h : isUrlChar c = true) :
    c ≠ ' ' ∧ c ≠ '\n' ∧ c ≠ ')' := by
  refine ⟨?_, ?_, ?_⟩ <;> (rintro rfl; revert h; decide)

theorem str_repr (n : Nat) : str (Nat.repr n) = Nat.toDigits 10 n := rfl

theorem toDigitsCore_no_hash :
    ∀ (fuel n : Nat) (acc : List Char), (∀ c ∈ acc, c ≠ '#') →
      ∀ c ∈ Nat.toDigitsCore 10 fuel n acc, c ≠ '#' := by
  intro fuel
  induction fuel with
  | zero => intro n acc hacc c hc; exact hacc c hc
  | succ fuel ih =>
    intro n acc hacc c hc
    unfold Nat.toDigitsCore at hc
    dsimp only at hc
    have hd : Nat.digitChar (n % 10) ≠ '#' := by
      have hlt : n % 10 < 10 := Nat.mod_lt _ (by norm_num)
      have h10 : ∀ k < 10, Nat.digitChar k ≠ '#' := by decide
      exact h10 _ hlt
    by_cases hz : n / 10 = 0
    · rw [if_pos hz] at hc
      rcases List.mem_cons.mp hc with hc2 | hc2
      · subst hc2; exact hd
      · exact hacc c hc2
    · rw [if_neg hz] at hc
      refine ih _ _ ?_ c hc
      intro x hx
      rcases List.mem_cons.mp hx with hx2 | hx2
      · subst hx2; exact hd
      · exact hacc x hx2

theorem repr_no_hash (n : Nat) : ∀ c ∈ str (Nat.repr n), c ≠ '#' := by
  rw [str_repr, Nat.toDigits]
  exact toDigitsCore_no_hash _ _ _ (by simp)

/-! Positive matcher lemmas: the matchers succeed at the positions the
rendered body puts them, with exactly the rendered captures. -/

theorem dropLit_cons_ne {p c : Char} (ps cs : Str) (h : p ≠ c) :
    dropLit (p :: ps) (c :: cs) = none := by
  rw [dropLit, if_neg h]

theorem takeWhile_stop_append (p : Char → Bool) (l : Str) (c : Char) (r : Str)
    (hl : ∀ x ∈ l, p x = true) (hc : p c = false) :
    (l ++ c :: r).takeWhile p = l ∧ (l ++ c :: r).dropWhile p = c :: r := by
  constructor
  · rw [takeWhile_all_append p l (c :: r) hl, List.takeWhile_cons, if_neg (by simp [hc])]
    simp
  · rw [dropWhile_all_append p l (c :: r) hl, List.dropWhile_cons, if_neg (by simp [hc])]

theorem matchUrlAt_wf (m rest : Str) (hm : m ≠ []) (hmc : ∀ c ∈ m, isUrlChar c = true) :
    matchUrlAt (str "https://" ++ (m ++ (str ".png" ++ (')' :: rest)))) =
      some (str "https://" ++ (m ++ str ".png"), rest) := by
  unfold matchUrlAt
  rw [dropLit_self]
  dsimp only
  have hall : ∀ c ∈ m ++ str ".png", isUrlChar c = true := by
    intro c hc
    rcases List.mem_append.mp hc with h | h
    · exact hmc c h
    · have hp : ∀ c ∈ str ".png", isUrlChar c = true := by decide
      exact hp c h
  have hre : m ++ (str ".png" ++ (')' :: rest)) = (m ++ str ".png") ++ (')' :: rest) := by
    rw [List.append_assoc]
  rw [hre]
  obtain ⟨htw, hdw⟩ := takeWhile_stop_append isUrlChar (m ++ str ".png") ')' rest hall
    (by decide)
  rw [htw, hdw]
  rw [if_pos ?cond]
  · rw [show (')' :: rest) = str ")" ++ rest from rfl, dropLit_self]
  case cond =>
    simp only [Bool.and_eq_true, decide_eq_true_eq]
    constructor
    · have h1 := List.length_pos.mpr hm
      have h2 : (str ".png").length = 4 := rfl
      simp only [List.length_append]
      omega
    · exact List.isSuffixOf_iff_suffix.mpr ⟨m, rfl⟩

theorem scanAlt_cons_skip (c : Char) (cs : Str) (h1 : c ≠ ']') (h2 : c ≠ '\n') :
    scanAlt (c :: cs) = scanAlt cs := by
  rw [scanAlt, show str "](" = ']' :: '(' :: ([] : Str) from rfl,
    dropLit_cons_ne _ _ (Ne.symm h1)]
  dsimp only
  rw [if_neg h2]

theorem scanAlt_append_skip (p : Str) (s : Str) (h : ∀ c ∈ p, c ≠ ']' ∧ c ≠ '\n') :
    scanAlt (p ++ s) = scanAlt s := by
  induction p with
  | nil => rfl
  | cons c cs ih =>
    rw [List.cons_append, scanAlt_cons_skip c _ (h c (by simp)).1 (h c (by simp)).2]
    exact ih fun x hx => h x (by simp [hx])

theorem scanAlt_hit (s : Str) (r : Str × Str) (h : matchUrlAt s = some r) :
    scanAlt (']' :: '(' :: s) = some r := by
  rw [scanAlt, show (']' :: '(' :: s) = str "](" ++ s from rfl, dropLit_self]
  dsimp only
  rw [h]

theorem matchImgAt_wf (alt m rest : Str) (halt : ∀ c ∈ alt, c ≠ ']' ∧ c ≠ '\n')
    (hm : m ≠ []) (hmc : ∀ c ∈ m, isUrlChar c = true) :
    matchImgAt ('!' :: '[' ::
        (alt ++ (']' :: '(' :: (str "https://" ++ (m ++ (str ".png" ++ (')' :: rest))))))) =
      some (str "https://" ++ (m ++ str ".png"), rest) := by
  unfold matchImgAt
  rw [show ('!' :: '[' ::
      (alt ++ (']' :: '(' :: (str "https://" ++ (m ++ (str ".png" ++ (')' :: rest))))))) =
      str "![" ++
        (alt ++ (']' :: '(' :: (str "https://" ++ (m ++ (str ".png" ++ (')' :: rest))))))
    from rfl, dropLit_self]
  dsimp only
  rw [scanAlt_append_skip alt _ halt, scanAlt_hit _ _ (matchUrlAt_wf m rest hm hmc)]

theorem matchImgAt_none_not_bang (c : Char) (cs : Str) (h : c ≠ '!') :
    matchImgAt (c :: cs) = none := by
  unfold matchImgAt
  rw [show str "![" = '!' :: '[' :: ([] : Str) from rfl, dropLit_cons_ne _ _ (Ne.symm h)]

theorem scanAnyToImg_cons_skip (c : Char) (cs : Str) (h : matchImgAt (c :: cs) = none) :
    scanAnyToImg (c :: cs) = scanAnyToImg cs := by
  rw [scanAnyToImg, h]

theorem scanAnyToImg_hit (c : Char) (cs : Str) (r : Str × Str)
    (h : matchImgAt (c :: cs) = some r) : scanAnyToImg (c :: cs) = some r := by
  rw [scanAnyToImg, h]

theorem isEmpty_false_of_ne_nil {l : Str} (h : l ≠ []) : l.isEmpty = false := by
  cases l with
  | nil => exact absurd rfl h
  | cons c cs => rfl

theorem matchLatestAt_here (sha m rest : Str) (hsha : HexId sha) (hm : m ≠ [])
    (hmc : ∀ c ∈ m, isUrlChar c = true) :
    matchLatestAt (str "**Latest** (`" ++
        (sha ++ ('`' :: ')' :: ':' :: '\n' :: '\n' :: '!' :: '[' ::
          (str "PR Infographic" ++ (']' :: '(' ::
            (str "https://" ++ (m ++ (str ".png" ++ (')' :: rest))))))))) =
      some (⟨sha, str "https://" ++ (m ++ str ".png")⟩, rest) := by
  obtain ⟨hne, hhex⟩ := hsha
  unfold matchLatestAt
  rw [dropLit_self]
  dsimp only
  obtain ⟨htw, hdw⟩ := takeWhile_stop_append isHexDigitChar sha '`' _ hhex (by decide)
  rw [htw, hdw, if_neg (by simp [isEmpty_false_of_ne_nil hne])]
  rw [show ('`' :: ')' :: ':' :: '\n' :: '\n' :: '!' :: '[' ::
      (str "PR Infographic" ++ (']' :: '(' ::
        (str "https://" ++ (m ++ (str ".png" ++ (')' :: rest)))))) : Str) =
      str "`)" ++ (':' :: '\n' :: '\n' :: '!' :: '[' ::
      (str "PR Infographic" ++ (']' :: '(' ::
        (str "https://" ++ (m ++ (str ".png" ++ (')' :: rest))))))) from rfl, dropLit_self]
  dsimp only
  rw [scanAnyToImg_cons_skip _ _ (matchImgAt_none_not_bang _ _ (by decide))]
  rw [scanAnyToImg_cons_skip _ _ (matchImgAt_none_not_bang _ _ (by decide))]
  rw [scanAnyToImg_cons_skip _ _ (matchImgAt_none_not_bang _ _ (by decide))]
  rw [scanAnyToImg_hit _ _ _
    (matchImgAt_wf (str "PR Infographic") m rest (by decide) hm hmc)]
  rfl

/-! Scanning lemmas: where the two scans can not match. -/

theorem matchLatestAt_none_not_star (c : Char) (cs : Str) (h : c ≠ '*') :
    matchLatestAt (c :: cs) = none := by
  unfold matchLatestAt
  rw [show str "**Latest** (`" =
    '*' :: '*' :: 'L' :: 'a' :: 't' :: 'e' :: 's' :: 't' :: '*' :: '*' :: ' ' :: '(' :: '`' ::
      ([] : Str) from rfl, dropLit_cons_ne _ _ (Ne.symm h)]

theorem findLatest_cons_none {c : Char} {cs : Str} (h : matchLatestAt (c :: cs) = none) :
    findLatest (c :: cs) = findLatest cs := by
  rw [findLatest, h]

theorem findLatest_append_no_star (p s : Str) (h : ∀ c ∈ p, c ≠ '*') :
    findLatest (p ++ s) = findLatest s := by
  induction p with
  | nil => rfl
  | cons c cs ih =>
    rw [List.cons_append,
      findLatest_cons_none (matchLatestAt_none_not_star c _ (h c (by simp)))]
    exact ih fun x hx => h x (by simp [hx])

theorem findLatest_hit {s : Str} {e : HistoryImage} {r : Str}
    (h : matchLatestAt s = some (e, r)) : findLatest s = some e := by
  cases s with
  | nil => cases h
  | cons c cs => rw [findLatest, h]

theorem matchHistAt_none_of_mismatch (s : Str) (h : ∀ t, s ≠ str "### `" ++ t) :
    matchHistAt s = none := by
  unfold matchHistAt
  cases hd : dropLit (str "### `") s with
  | none => rfl
  | some t => exact absurd ((dropLit_eq_some_iff _ _ _).mp hd) (h t)

theorem findHistory_cons_ne_hash (c : Char) (cs : Str) (h : c ≠ '#') :
    findHistory (c :: cs) = findHistory cs := by
  refine findHistory_cons_none (matchHistAt_none_of_mismatch _ ?_)
  intro t heq
  rw [strHist_cons] at heq
  injection heq with h1 _
  exact h h1

theorem findHistory_cons2_ne_hash (c0 c1 : Char) (cs : Str) (h : c1 ≠ '#') :
    findHistory (c0 :: c1 :: cs) = findHistory (c1 :: cs) := by
  refine findHistory_cons_none (matchHistAt_none_of_mismatch _ ?_)
  intro t heq
  rw [strHist_cons] at heq
  injection heq with _ heq
  injection heq with h1 _
  exact h h1

theorem findHistory_append_no_hash (p s : Str) (h : ∀ c ∈ p, c ≠ '#') :
    findHistory (p ++ s) = findHistory s := by
  induction p with
  | nil => rfl
  | cons c cs ih =>
    rw [List.cons_append, findHistory_cons_ne_hash c _ (h c (by simp))]
    exact ih fun x hx => h x (by simp [hx])

theorem findHistory_append_urlrun (u t : Str) (hu : ∀ c ∈ u, isUrlChar c = true) :
    findHistory (u ++ ')' :: '\n' :: '\n' :: t) = findHistory (')' :: '\n' :: '\n' :: t) := by
  induction u with
  | nil => rfl
  | cons c u' ih =>
    rw [List.cons_append, findHistory_cons_none (matchHistAt_none_of_mismatch _ ?_)]
    · exact ih fun x hx => hu x (by simp [hx])
    · intro t2 heq
      rw [strHist_cons] at heq
      rcases u' with _ | ⟨d1, _ | ⟨d2, _ | ⟨d3, u3⟩⟩⟩
      · simp only [List.cons_append, List.nil_append, List.cons.injEq] at heq
        exact absurd heq.2.1 (by decide)
      · simp only [List.cons_append, List.nil_append, List.cons.injEq] at heq
        exact absurd heq.2.2.1 (by decide)
      · simp only [List.cons_append, List.nil_append, List.cons.injEq] at heq
        exact absurd heq.2.2.2.1 (by decide)
      · simp only [List.cons_append, List.cons.injEq] at heq
        have hd3 : isUrlChar d3 = true := hu d3 (by simp)
        have hsp : d3 = ' ' := heq.2.2.2.1
        subst hsp
        exact absurd hd3 (by decide)

/-! The history regex at a rendered entry. -/

theorem matchHistAt_entry (sha m rest : Str) (hsha : HexId sha) (hm : m ≠ [])
    (hmc : ∀ c ∈ m, isUrlChar c = true) :
    matchHistAt (str "### `" ++
        (sha ++ ('`' :: '\n' :: '!' :: '[' ::
          (sha ++ (']' :: '(' ::
            (str "https://" ++ (m ++ (str ".png" ++ (')' :: rest))))))))) =
      some (⟨sha, str "https://" ++ (m ++ str ".png")⟩, rest) := by
  obtain ⟨hne, hhex⟩ := hsha
  unfold matchHistAt
  rw [dropLit_self]
  dsimp only
  obtain ⟨htw, hdw⟩ := takeWhile_stop_append isHexDigitChar sha '`' _ hhex (by decide)
  rw [htw, hdw, if_neg (by simp [isEmpty_false_of_ne_nil hne])]
  rw [show ('`' :: '\n' :: '!' :: '[' ::
      (sha ++ (']' :: '(' ::
        (str "https://" ++ (m ++ (str ".png" ++ (')' :: rest)))))) : Str) =
      str "`" ++ ('\n' :: '!' :: '[' ::
      (sha ++ (']' :: '(' ::
        (str "https://" ++ (m ++ (str ".png" ++ (')' :: rest))))))) from rfl, dropLit_self]
  dsimp only
  have htw2 : List.takeWhile isJsWs ('\n' :: '!' :: '[' ::
      (sha ++ (']' :: '(' ::
        (str "https://" ++ (m ++ (str ".png" ++ (')' :: rest))))))) = ['\n'] := by
    rw [List.takeWhile_cons, if_pos (show isJsWs '\n' = true from rfl),
      List.takeWhile_cons, if_neg (show ¬isJsWs '!' = true by decide)]
  have hdw2 : List.dropWhile isJsWs ('\n' :: '!' :: '[' ::
      (sha ++ (']' :: '(' ::
        (str "https://" ++ (m ++ (str ".png" ++ (')' :: rest))))))) = '!' :: '[' ::
      (sha ++ (']' :: '(' ::
        (str "https://" ++ (m ++ (str ".png" ++ (')' :: rest)))))) := by
    rw [List.dropWhile_cons, if_pos (show isJsWs '\n' = true from rfl),
      List.dropWhile_cons, if_neg (show ¬isJsWs '!' = true by decide)]
  rw [htw2, hdw2, if_pos (show (['\n'] : Str).getLast? = some '\n' from rfl)]
  have halt : ∀ c ∈ sha, c ≠ ']' ∧ c ≠ '\n' := by
    intro c hc
    have h := hexChar_ne (hhex c hc)
    exact ⟨h.1, h.2.1⟩
  rw [matchImgAt_wf sha m rest halt hm hmc]
  rfl

/-! Assembling the rendered body.  The reshaping lemmas below split the
rendered literals at the points where the matcher lemmas need explicit
characters; each is definitional. -/

theorem matchHistAt_nil : matchHistAt [] = none := rfl

theorem findHistory_of_match {s : Str} {e : HistoryImage} {rest : Str}
    (h : matchHistAt s = some (e, rest)) : findHistory s = e :: findHistory rest := by
  cases s with
  | nil => rw [matchHistAt_nil] at h; cases h
  | cons c cs => exact findHistory_cons_some h

theorem strA_entry (X : Str) : str "`\n![" ++ X = '`' :: '\n' :: '!' :: '[' :: X := rfl

theorem strB_alt (X : Str) : str "](" ++ X = ']' :: '(' :: X := rfl

theorem strC_paren (X : Str) : str ")" ++ X = ')' :: X := rfl

theorem strD_sep (X : Str) : str "\n\n" ++ X = '\n' :: '\n' :: X := rfl

theorem reshape_H3 (X : Str) :
    str "\n\n</details>\n" ++ X = '\n' :: '\n' :: (str "</details>\n" ++ X) := rfl

theorem findHistory_no_hash_nil (p : Str) (h : ∀ c ∈ p, c ≠ '#') : findHistory p = [] := by
  have h2 := findHistory_append_no_hash p [] h
  simpa using h2

theorem findHistory_cons3_ne_hash (c0 c1 c2 : Char) (cs : Str) (h : c2 ≠ '#') :
    findHistory (c0 :: c1 :: c2 :: cs) = findHistory (c1 :: c2 :: cs) := by
  refine findHistory_cons_none (matchHistAt_none_of_mismatch _ ?_)
  intro t heq
  rw [strHist_cons] at heq
  injection heq with _ heq
  injection heq with _ heq
  injection heq with h1 _
  exact h h1

/-- One rendered history entry at the head of the scan. -/
theorem findHistory_entry_step (s m tail : Str) (hsha : HexId s) (hm0 : m ≠ [])
    (hmc : ∀ c ∈ m, isUrlChar c = true) :
    findHistory (str "### `" ++
        (s ++ ('`' :: '\n' :: '!' :: '[' ::
          (s ++ (']' :: '(' ::
            (str "https://" ++ (m ++ (str ".png" ++ (')' :: tail))))))))) =
      ⟨s, str "https://" ++ (m ++ str ".png")⟩ :: findHistory tail :=
  findHistory_of_match (matchHistAt_entry s m tail hsha hm0 hmc)

/-- The history scan over the rendered image list recovers exactly the
rendered entries, in order. -/
theorem findHistory_entries (entries : List HistoryImage) (t : Str)
    (hwf : ∀ e ∈ entries, WfImage e)
    (ht : findHistory ('\n' :: '\n' :: t) = []) :
    findHistory (joinSep (str "\n\n")
        (entries.map fun img =>
          str "### `" ++ img.sha ++ str "`\n![" ++ img.sha ++ str "](" ++ img.url ++ str ")")
        ++ ('\n' :: '\n' :: t)) = entries := by
  induction entries with
  | nil => simpa [joinSep] using ht
  | cons e es ih =>
    obtain ⟨⟨hne, hhex⟩, m, hmu, hm0, hmc⟩ := hwf e (by simp)
    have hmu' : e.url = str "https://" ++ (m ++ str ".png") := by
      rw [hmu, List.append_assoc]
    have hwf' : ∀ x ∈ es, WfImage x := fun x hx => hwf x (by simp [hx])
    cases es with
    | nil =>
      simp only [List.map_cons, List.map_nil, joinSep, hmu']
      simp only [List.append_assoc, List.cons_append, strA_entry, strB_alt, strC_paren]
      rw [findHistory_entry_step e.sha m _ ⟨hne, hhex⟩ hm0 hmc, ht, ← hmu']
    | cons e2 es2 =>
      simp only [List.map_cons, joinSep, hmu']
      simp only [List.append_assoc, List.cons_append, strA_entry, strB_alt, strC_paren,
        strD_sep]
      rw [findHistory_entry_step e.sha m _ ⟨hne, hhex⟩ hm0 hmc]
      rw [findHistory_cons_ne_hash _ _ (by decide), findHistory_cons_ne_hash _ _ (by decide)]
      have ih2 := ih hwf'
      simp only [List.map_cons, List.append_assoc, List.cons_append, strA_entry, strB_alt,
        strC_paren, strD_sep] at ih2
      rw [ih2, ← hmu']

theorem reshape_head (Y : Str) :
    COMMENT_MARKER ++ (str "\n## 🎨 PR Visual\n\n**Latest** (`" ++ Y) =
      str "<!-- pr-visual -->\n## 🎨 PR Visual\n\n" ++ (str "**Latest** (`" ++ Y) := rfl

theorem reshape_hist_head (Y : Str) :
    COMMENT_MARKER ++ (str "\n## 🎨 PR Visual\n\n**Latest** (`" ++ Y) =
      str "<!-- pr-visual -->\n" ++
        ('#' :: '#' :: ' ' :: (str "🎨 PR Visual\n\n**Latest** (`" ++ Y)) := rfl

theorem reshape_L2 (Z : Str) :
    str "`):\n\n![PR Infographic](" ++ Z =
      '`' :: ')' :: ':' :: '\n' :: '\n' :: '!' :: '[' ::
        (str "PR Infographic" ++ (']' :: '(' :: Z)) := rfl

theorem reshape_L3 (Z : Str) : str ")\n\n" ++ Z = ')' :: '\n' :: '\n' :: Z := rfl

/-- The Latest regex on the rendered body finds exactly the new entry,
whatever follows the Latest section. -/
theorem findLatest_body (sha m X : Str) (hsha : HexId sha) (hm0 : m ≠ [])
    (hmc : ∀ c ∈ m, isUrlChar c = true) :
    findLatest (COMMENT_MARKER ++ str "\n## 🎨 PR Visual\n\n**Latest** (`" ++ sha ++
        str "`):\n\n![PR Infographic](" ++ (str "https://" ++ m ++ str ".png") ++
        str ")\n\n" ++ X) =
      some ⟨sha, str "https://" ++ m ++ str ".png"⟩ := by
  simp only [List.append_assoc]
  rw [reshape_head, findLatest_append_no_star _ _ (by decide)]
  apply findLatest_hit
  rw [reshape_L2, reshape_L3]
  exact matchLatestAt_here sha m ('\n' :: '\n' :: X) hsha hm0 hmc

/-- The history regex never matches inside the marker, heading or Latest
section of a rendered body: the scan passes straight to what follows. -/
theorem findHistory_body (sha m X : Str) (hsha : HexId sha) (_hm0 : m ≠ [])
    (hmc : ∀ c ∈ m, isUrlChar c = true) :
    findHistory (COMMENT_MARKER ++ str "\n## 🎨 PR Visual\n\n**Latest** (`" ++ sha ++
        str "`):\n\n![PR Infographic](" ++ (str "https://" ++ m ++ str ".png") ++
        str ")\n\n" ++ X) =
      findHistory X := by
  simp only [List.append_assoc]
  rw [reshape_hist_head, findHistory_append_no_hash _ _ (by decide)]
  rw [findHistory_cons3_ne_hash _ _ _ _ (by decide)]
  rw [findHistory_cons2_ne_hash _ _ _ (by decide)]
  rw [findHistory_cons_ne_hash _ _ (by decide)]
  rw [findHistory_append_no_hash (str "🎨 PR Visual\n\n**Latest** (`") _ (by decide)]
  rw [findHistory_append_no_hash sha _ (fun c hc => (hexChar_ne (hsha.2 c hc)).2.2.1)]
  rw [findHistory_append_no_hash (str "`):\n\n![PR Infographic](") _ (by decide)]
  rw [reshape_L3]
  rw [show str "https://" ++ (m ++ (str ".png" ++ (')' :: '\n' :: '\n' :: X))) =
      (str "https://" ++ (m ++ str ".png")) ++ (')' :: '\n' :: '\n' :: X) by
    simp [List.append_assoc]]
  rw [findHistory_append_urlrun _ _ ?hu]
  · rw [findHistory_cons_ne_hash _ _ (by decide), findHistory_cons_ne_hash _ _ (by decide),
      findHistory_cons_ne_hash _ _ (by decide)]
  case hu =>
    intro c hc
    rcases List.mem_append.mp hc with h | h
    · have hh : ∀ c ∈ str "https://", isUrlChar c = true := by decide
      exact hh c h
    · rcases List.mem_append.mp h with h | h
      · exact hmc c h
      · have hp : ∀ c ∈ str ".png", isUrlChar c = true := by decide
        exact hp c h

/-- The round trip: parsing the body `formatComment` renders returns the new
entry followed by the previous entries in order. -/
theorem parse_format_eq (sha url : Str) (prev : List HistoryImage)
    (hsha : HexId sha) (hurl : PngUrl url) (hprev : ∀ e ∈ prev, WfImage e) :
    parseImagesFromComment (formatComment url sha prev) = ⟨sha, url⟩ :: prev := by
  obtain ⟨m, hmu, hm0, hmc⟩ := hurl
  unfold formatComment
  cases prev with
  | nil =>
    dsimp only
    rw [if_neg (by decide), List.append_nil]
    unfold parseImagesFromComment
    rw [hmu]
    rw [findLatest_body sha m _ hsha hm0 hmc]
    rw [findHistory_body sha m _ hsha hm0 hmc]
    rw [findHistory_no_hash_nil _ (by decide)]
    rw [← hmu]
    rfl
  | cons p ps =>
    dsimp only
    rw [if_pos (by simp)]
    unfold parseImagesFromComment
    rw [hmu]
    rw [List.append_assoc]
    rw [findLatest_body sha m _ hsha hm0 hmc]
    rw [findHistory_body sha m _ hsha hm0 hmc]
    dsimp only
    simp only [List.append_assoc]
    rw [findHistory_append_no_hash (str "\n<details>\n<summary>Previous versions (") _
      (by decide)]
    rw [findHistory_append_no_hash _ _ (repr_no_hash _)]
    rw [findHistory_append_no_hash (str ")</summary>\n\n") _ (by decide)]
    rw [reshape_H3]
    rw [show (fun img : HistoryImage =>
        str "### `" ++ (img.sha ++ (str "`\n![" ++ (img.sha ++ (str "](" ++
          (img.url ++ str ")")))))) =
      (fun img : HistoryImage =>
        str "### `" ++ img.sha ++ str "`\n![" ++ img.sha ++ str "](" ++ img.url ++ str ")")
      from funext fun img => by simp only [List.append_assoc]]
    rw [findHistory_entries (p :: ps) _ hprev ?ht]
    · have hmu2 : url = str "https://" ++ (m ++ str ".png") := by
        rw [hmu, List.append_assoc]
      rw [← hmu2]
      rfl
    case ht =>
      rw [findHistory_cons_ne_hash _ _ (by decide), findHistory_cons_ne_hash _ _ (by decide)]
      rw [findHistory_append_no_hash (str "</details>\n") _ (by decide)]
      exact findHistory_no_hash_nil _ (by decide)

/-! ## C6 — the round trip as claimed -/

/-- C6: for a rendered-form artifact URL, a lowercase-hex revision id and
previous entries of the same shape, parsing the rendered comment returns
exactly the new entry followed by the previous entries in their original
order, and the rendered body carries the marker token (an HTML comment) as
its prefix. -/
theorem c6_comment_roundtrip (sha url : Str) (prev : List HistoryImage)
    (hsha : HexId sha) (hurl : PngUrl url) (hprev : ∀ e ∈ prev, WfImage e) :
    parseImagesFromComment (formatComment url sha prev) = ⟨sha, url⟩ :: prev ∧
    COMMENT_MARKER <+: formatComment url sha prev := by
  refine ⟨parse_format_eq sha url prev hsha hurl hprev, ?_⟩
  unfold formatComment
  dsimp only
  exact (((((((List.prefix_append _ _).trans (List.prefix_append _ _)).trans
    (List.prefix_append _ _)).trans (List.prefix_append _ _)).trans
    (List.prefix_append _ _)).trans (List.prefix_append _ _)).trans
    (List.prefix_append _ _))

/-- C6 witness: a concrete rendered comment with one previous entry. -/
theorem c6_comment_roundtrip_witness :
    parseImagesFromComment (formatComment (str "https://img.example/one.png")
        (str "abc1234") [⟨str "dead001", str "https://img.example/zero.png"⟩]) =
      [⟨str "abc1234", str "https://img.example/one.png"⟩,
        ⟨str "dead001", str "https://img.example/zero.png"⟩] ∧
    COMMENT_MARKER <+: formatComment (str "https://img.example/one.png") (str "abc1234")
        [⟨str "dead001", str "https://img.example/zero.png"⟩] :=
  c6_comment_roundtrip (str "abc1234") (str "https://img.example/one.png")
    [⟨str "dead001", str "https://img.example/zero.png"⟩]
    ⟨by decide, by decide⟩
    ⟨str "img.example/one", rfl, by decide, by decide⟩
    (by
      intro e he
      simp only [List.mem_singleton] at he
      subst he
      exact ⟨⟨by decide, by decide⟩, str "img.example/zero", rfl, by decide, by decide⟩)

/-! ## C5 — revision uniqueness across Latest and Previous versions -/

/-- C5 counterexample: reprocessing the same revision `abc1234` demotes the
previously-latest entry for that very revision into the older list, so the
revision appears twice across Latest and Previous versions — the render
pipeline has no replace-instead-of-duplicate rule. -/
theorem c5_duplicate_revision_counterexample :
    parseImagesFromComment (formatComment (str "https://img.example/two.png")
        (str "abc1234")
        (parseImagesFromComment
          (formatComment (str "https://img.example/one.png") (str "abc1234") []))) =
      [⟨str "abc1234", str "https://img.example/two.png"⟩,
        ⟨str "abc1234", str "https://img.example/one.png"⟩] ∧
    ¬ (List.map HistoryImage.sha
        (parseImagesFromComment (formatComment (str "https://img.example/two.png")
          (str "abc1234")
          (parseImagesFromComment
            (formatComment (str "https://img.example/one.png") (str "abc1234") []))))).Nodup := by
  have h1 : parseImagesFromComment (formatComment (str "https://img.example/one.png")
      (str "abc1234") []) = [⟨str "abc1234", str "https://img.example/one.png"⟩] :=
    parse_format_eq _ _ _ ⟨by decide, by decide⟩
      ⟨str "img.example/one", rfl, by decide, by decide⟩ (by simp)
  rw [h1]
  have h2 := parse_format_eq (str "abc1234") (str "https://img.example/two.png")
      [⟨str "abc1234", str "https://img.example/one.png"⟩] ⟨by decide, by decide⟩
      ⟨str "img.example/two", rfl, by decide, by decide⟩
      (by
        intro e he
        simp only [List.mem_singleton] at he
        subst he
        exact ⟨⟨by decide, by decide⟩, str "img.example/one", rfl, by decide, by decide⟩)
  rw [h2]
  exact ⟨rfl, by decide⟩

/-- C5 amended: the previously-latest entry is demoted into the older list
unconditionally — the parsed previous entries pass through wholesale, even
when the previously-latest revision equals the new one — so revisions are
unique across Latest and older only when the new revision differs from all
previously rendered ones (and those were distinct). -/
theorem c5_demotion_amended (sha url : Str) (prev : List HistoryImage)
    (hsha : HexId sha) (hurl : PngUrl url) (hprev : ∀ e ∈ prev, WfImage e) :
    parseImagesFromComment (formatComment url sha prev) = ⟨sha, url⟩ :: prev ∧
    (sha ∉ prev.map HistoryImage.sha → (prev.map HistoryImage.sha).Nodup →
      (List.map HistoryImage.sha (⟨sha, url⟩ :: prev)).Nodup) := by
  refine ⟨parse_format_eq sha url prev hsha hurl hprev, fun hnotin hnodup => ?_⟩
  simp only [List.map_cons, List.nodup_cons]
  exact ⟨hnotin, hnodup⟩

/-- C5 amended witness: a fresh revision over one distinct previous entry. -/
theorem c5_demotion_amended_witness :
    parseImagesFromComment (formatComment (str "https://img.example/two.png")
        (str "beef002") [⟨str "dead001", str "https://img.example/one.png"⟩]) =
      ⟨str "beef002", str "https://img.example/two.png"⟩ ::
        [⟨str "dead001", str "https://img.example/one.png"⟩] ∧
    (List.map HistoryImage.sha (⟨str "beef002", str "https://img.example/two.png"⟩ ::
        [⟨str "dead001", str "https://img.example/one.png"⟩])).Nodup := by
  have h := c5_demotion_amended (str "beef002") (str "https://img.example/two.png")
      [⟨str "dead001", str "https://img.example/one.png"⟩] ⟨by decide, by decide⟩
      ⟨str "img.example/two", rfl, by decide, by decide⟩
      (by
        intro e he
        simp only [List.mem_singleton] at he
        subst he
        exact ⟨⟨by decide, by decide⟩, str "img.example/one", rfl, by decide, by decide⟩)
  exact ⟨h.1, h.2 (by decide) (by decide)⟩

end PRVisual
